import Mathlib

set_option maxHeartbeats 1000000

namespace Spec2Proof

namespace adt

/-- ErrorCode mirrors the Go enumeration of package adt in iota order:
EvalError, UserError, NotExistError, StructuralCycleError, IncompleteError,
CycleError. -/
inductive ErrorCode where
  | evalError
  | userError
  | notExistError
  | structuralCycleError
  | incompleteError
  | cycleError
deriving DecidableEq, Repr

/-- Numeric discriminant of an ErrorCode, mirroring the Go iota values; the Go
code compares codes with the integer order of these discriminants. -/
def ErrorCode.toNat : ErrorCode → Nat
  | .evalError => 0
  | .userError => 1
  | .notExistError => 2
  | .structuralCycleError => 3
  | .incompleteError => 4
  | .cycleError => 5

/-- Values of package adt as far as the error algebra inspects them: either a
Bottom, with its fields Src, Err, Code, HasRecursive, ChildError, Value
inlined, or some non-Bottom value abstracted by a tag. Source positions
(ast.Node) are abstracted to node identities, a nil node being none.
Modelled from the spec: errors.Error (package cue/errors, not under src/) is a
diagnostic that supports multiple underlying causes; we model it as the list
of its underlying messages, and errors.Append as concatenation of those lists
in argument order. -/
inductive Value where
  | bottomV (src : Option Nat) (err : List String) (code : ErrorCode)
      (hasRecursive : Bool) (childError : Bool) (value : Option Value)
  | other (tag : Nat)

/-- Bottom mirrors the Go struct Bottom of package adt, fields Src, Err, Code,
HasRecursive, ChildError and Value. -/
structure Bottom where
  src : Option Nat
  err : List String
  code : ErrorCode
  hasRecursive : Bool
  childError : Bool
  value : Option Value

/-- View of a *Bottom as an adt Value interface value. -/
def Bottom.toValue (b : Bottom) : Value :=
  .bottomV b.src b.err b.code b.hasRecursive b.childError b.value

/-- Go type assertion x.(*Bottom) applied to a Value; none when the value is
not a Bottom. -/
def Value.asBottom : Value → Option Bottom
  | .bottomV s e c h ce v => some ⟨s, e, c, h, ce, v⟩
  | .other _ => none

/-- Vertex, restricted to the two fields AddChildError reads and writes: the
current value (a possibly-nil Value interface) and the running child error
aggregate (a possibly-nil *Bottom). The remaining Vertex fields live outside
src/ and are untouched by the functions embedded here. -/
structure Vertex where
  value : Option Value
  childErrors : Option Bottom

/-- Bottom.IsIncomplete, with the explicit nil-receiver case of the Go method
func (b *Bottom) IsIncomplete() bool: a nil receiver reports false, otherwise
the code is compared against IncompleteError and CycleError. -/
def Bottom.IsIncomplete : Option Bottom → Bool
  | none => false
  | some b => b.code == .incompleteError || b.code == .cycleError

/-- isIncomplete reports whether v is associated with an incomplete error,
mirroring func isIncomplete(v *Vertex) bool: nil vertex reports true; a value
that type-asserts to *Bottom defers to IsIncomplete; anything else is false. -/
def isIncomplete : Option Vertex → Bool
  | none => true
  | some v =>
    match v.value.bind Value.asBottom with
    | some b => Bottom.IsIncomplete (some b)
    | none => false

/-- CombineErrors combines two errors that originate at the same Vertex,
mirroring func CombineErrors(src ast.Node, x, y Value) *Bottom. The two Go
type assertions are the two Option.bind Value.asBottom scrutinees (none covers
a nil interface as well as a non-Bottom value). The Go function reaches its
final merging return on two paths, codes equal or codes different with the
larger one below IncompleteError, so the merge expression appears twice. -/
def CombineErrors (src : Option Nat) (x y : Option Value) : Option Bottom :=
  match x.bind Value.asBottom, y.bind Value.asBottom with
  | some a, some b =>
    if a.code = b.code then
      some ⟨src, a.err ++ b.err, a.code, false, false, none⟩
    else
      let p := if a.code.toNat > b.code.toNat then (b, a) else (a, b)
      if ErrorCode.incompleteError.toNat ≤ p.2.code.toNat then
        some p.1
      else
        some ⟨src, p.1.err ++ p.2.err, p.1.code, false, false, none⟩
  | some a, none => some a
  | none, some b => some b
  | none, none => none

/-- AddChildError updates v to record an error that occurred in one of its
descendent arcs, mirroring func (v *Vertex) AddChildError(recursive *Bottom).
Mutation of the vertex is modelled by returning the updated Vertex: the child
error is always folded into ChildErrors; an incomplete recursive error stops
there; otherwise the vertex value either becomes a fresh Bottom remembering
the pre-failure value, or, when already a Bottom, gains the hasRecursive flag
and the smaller (more severe) of the two codes. -/
def Vertex.AddChildError (v : Vertex) (recursive : Bottom) : Vertex :=
  let v := { v with
    childErrors := CombineErrors none (v.childErrors.map Bottom.toValue)
      (some recursive.toValue) }
  if Bottom.IsIncomplete (some recursive) then
    v
  else
    match v.value.bind Value.asBottom with
    | none =>
      { v with value := some (Bottom.toValue
          ⟨none, recursive.err, recursive.code, true, true, v.value⟩) }
    | some err =>
      let err := { err with hasRecursive := true }
      let err := if err.code.toNat > recursive.code.toNat
        then { err with code := recursive.code } else err
      { v with value := some err.toValue }

/-- A code is incomplete-class iff it is IncompleteError or CycleError (the
classification used throughout the spec of the error algebra). -/
def incompleteClass (c : ErrorCode) : Bool :=
  c == .incompleteError || c == .cycleError

/-- A code is fatal-class iff it is not incomplete-class. -/
def fatalClass (c : ErrorCode) : Bool :=
  !(incompleteClass c)

end adt

namespace cue

/-- Operator tokens of the lowered fragment, mirroring the cue/token constants
the builder dispatches on. -/
inductive Token where
  | or
  | mul
  | add
  | sub
  | not
  | geq
  | gtr
  | lss
  | leq
  | neq
  | mat
  | nmat
deriving DecidableEq, Repr

/-- Kind bitmasks of package cue, abstracted to the combinations this fragment
constructs: stringKind, stringKind bitor intKind, and topKind bitor nonGround
(used by newBound). The numeric mask values live outside src/. -/
inductive CueKind where
  | stringKind
  | stringOrIntKind
  | topNonGroundKind
deriving DecidableEq, Repr

/-- Fragment of the cue/ast syntax tree exercised by the claims under study.
Every node carries its identity (a stand-in for the source node, which
newExpr and newNode wrap as a position). An identifier here always carries the
scope node its Scope field points at, i.e. the name-resolved case of the Go
walk; the claims lower no unresolved identifiers. -/
inductive AstExpr where
  | basicLit (nid : Nat) (lit : String)
  | ident (nid : Nat) (name : String) (scopeId : Nat)
  | unaryExpr (nid : Nat) (op : Token) (x : AstExpr)
  | binaryExpr (nid : Nat) (op : Token) (x y : AstExpr)
  | listLit (nid : Nat) (elems : List AstExpr)

/-- Identity of an AST node. -/
def AstExpr.nid : AstExpr → Nat
  | .basicLit n _ => n
  | .ident n _ _ => n
  | .unaryExpr n _ _ => n
  | .binaryExpr n _ _ _ => n
  | .listLit n _ => n

/-- Lowered values of package cue needed by the claims: literals, top, basic
type markers, unary and binary operator nodes, bound constraints, node
references and selectors, disjunctions, lists, and bottoms. A node reference
keeps the identity of the referenced syntax node; the get-or-create
placeholder of mapScope is summarized by that identity. litParser.parse and
list.initLit live outside src/; modelled from the spec, a basic literal
lowers to a literal value keeping its source text, and a list lowers to the
record of its positional element arcs (the example lists carry no ellipsis or
element type, so no length bound is attached). -/
inductive CueValue where
  | litV (src : Nat) (s : String)
  | topV (src : Option Nat)
  | basicTypeV (src : Option Nat) (kind : CueKind)
  | unaryV (src : Nat) (op : Token) (x : CueValue)
  | boundValV (src : Nat) (op : Token) (kind : CueKind) (x : CueValue)
  | binaryV (src : Nat) (op : Token) (x y : CueValue)
  | nodeRefV (src : Nat) (node : Nat)
  | selectorV (src : Nat) (x : CueValue) (feature : String)
  | disjunctionV (src : Nat) (values : List (CueValue × Bool)) (hasDefaults : Bool)
  | listV (src : Nat) (arcs : List CueValue)
  | bottomCue (src : Nat) (msg : String)

/-- The disjunction struct while it is being filled by addDisjunctionElem:
base value, ordered branch list (each with its isDefault mark) and the
hasDefaults flag. -/
structure Disjunction where
  src : Nat
  values : List (CueValue × Bool)
  hasDefaults : Bool

mutual

/-- walk lowers a syntax node to a value, mirroring the expression cases of
func (v *astVisitor) walk relevant to the claims: literals via the literal
parser, resolved identifiers to a selector over a node reference, unary NOT,
ADD and SUB to unary operator nodes, the comparison and match tokens to bound
constraints, a bare MUL prefix to the preference-mark error, OR binary
expressions through the disjunction builder, any other binary operator to a
binary node, and list literals to their positional elements. The diagnostics
side effect of errf is modelled separately with errf itself. -/
def walk : AstExpr → CueValue
  | .basicLit nid s => .litV nid s
  | .ident nid name scopeId => .selectorV nid (.nodeRefV nid scopeId) name
  | .unaryExpr nid op x =>
    match op with
    | .not | .add | .sub => .unaryV nid op (walk x)
    | .geq | .gtr | .lss | .leq | .neq | .mat | .nmat =>
      .boundValV nid op .topNonGroundKind (walk x)
    | .mul => .bottomCue nid "preference mark not allowed at this position"
    | .or => .bottomCue nid "unsupported unary operator |"
  | .binaryExpr nid op x y =>
    match op with
    | .or =>
      let d : Disjunction := ⟨nid, [], false⟩
      let d := addDisjunctionElem d x false
      let d := addDisjunctionElem d y false
      .disjunctionV d.src d.values d.hasDefaults
    | _ => .binaryV nid op (walk x) (walk y)
  | .listLit nid elems => .listV nid (elems.attach.map (fun e => walk e.1))
termination_by n => 2 * sizeOf n
decreasing_by
  all_goals simp_wf
  all_goals first
    | omega
    | (have h := List.sizeOf_lt_of_mem e.2; omega)

/-- addDisjunctionElem mirrors func (v *astVisitor) addDisjunctionElem: an OR
binary operand is flattened recursively into the same disjunction; a unary
operand sets the hasDefaults flag, and when its operator is MUL the branch is
the stripped operand with its mark set; every other operand is appended as one
branch with the inherited mark. The Go reassignment of mark and n inside the
UnaryExpr case is spelled as the two branches of the MUL test. -/
def addDisjunctionElem (d : Disjunction) (n : AstExpr) (mark : Bool) : Disjunction :=
  match n with
  | .binaryExpr _ .or x y =>
    addDisjunctionElem (addDisjunctionElem d x mark) y mark
  | .unaryExpr nid op x =>
    if op = .mul then
      { d with values := d.values ++ [(walk x, true)], hasDefaults := true }
    else
      { d with values := d.values ++ [(walk (.unaryExpr nid op x), mark)],
               hasDefaults := true }
  | n => { d with values := d.values ++ [(walk n, mark)] }
termination_by 2 * sizeOf n + 1
decreasing_by all_goals simp_wf; all_goals omega

end

/-- Does the flattened branch chain of a disjunction expression contain a
branch prefixed with the default marker, the MUL token? This classifier is
written from the wording of the spec, to compare with what the code does. -/
def hasDefaultMark : AstExpr → Bool
  | .binaryExpr _ .or x y => hasDefaultMark x || hasDefaultMark y
  | .unaryExpr _ .mul _ => true
  | _ => false

/-- Is some branch of the flattened chain a unary expression, of whatever
operator? This is the condition the code actually keys hasDefaults on. -/
def hasUnaryBranch : AstExpr → Bool
  | .binaryExpr _ .or x y => hasUnaryBranch x || hasUnaryBranch y
  | .unaryExpr _ _ _ => true
  | _ => false

/-- The hasDefaults flag of a lowered disjunction, none on any other value. -/
def disjDefaults : CueValue → Option Bool
  | .disjunctionV _ _ h => some h
  | _ => none

/-- The branch list of a flattened disjunction, written from the wording of
the spec for comparison with addDisjunctionElem: recurse into both operands of
an OR expression keeping source order, strip the default marker from a
default-marked branch and mark exactly that branch, and lower any other
operand as a single branch carrying the inherited mark. -/
def flattenBranches : AstExpr → Bool → List (CueValue × Bool)
  | .binaryExpr _ .or x y, mark => flattenBranches x mark ++ flattenBranches y mark
  | .unaryExpr _ .mul x, _ => [(walk x, true)]
  | n, mark => [(walk n, mark)]

/-- One entry of the build-wide diagnostics list, mirroring nodeError: the
selector path from the root, the offending node, and the message (the format
string with its arguments, abstracted to the formatted text). -/
structure NodeError where
  path : List String
  n : Nat
  msg : String

/-- mkErr on the visitor context. Modelled from the spec: mkErr (package cue,
outside src/) builds a bottom value for the node carrying the message. -/
def mkErr (n : Nat) (msg : String) : CueValue := .bottomCue n msg

/-- errf mirrors func (v *astVisitor) errf: it appends a nodeError carrying
the visitor path, the node and the message to the build-wide errors list, and
returns the bottom built by mkErr. The mutable astState.errors list is passed
and returned explicitly. -/
def errf (errors : List NodeError) (path : List String) (n : Nat) (msg : String) :
    List NodeError × CueValue :=
  (errors ++ [⟨path, n, msg⟩], mkErr n msg)

/-- isBottom of package cue (outside src/). Modelled from the spec: reports
whether a lowered value is a bottom. -/
def isBottom : CueValue → Bool
  | .bottomCue _ _ => true
  | _ => false

/-- What Instance.insertFile can hand back to its caller: the build-wide
diagnostics list, or a callError wrapping the top-level bottom. -/
inductive InsertErr where
  | errorList (errs : List NodeError)
  | callErr (b : CueValue)

/-- Decision core of func (inst *Instance) insertFile after the walk: given
the result of walking the file and the accumulated diagnostics list, surface
the diagnostics list when the result is a bottom and the list is nonempty,
surface the bottom as a callError when the result is a bottom and the list is
empty, and return nil (none) when the result is not a bottom. -/
def insertFileReport (result : CueValue) (errs : List NodeError) : Option InsertErr :=
  if isBottom result then
    if errs.length > 0 then some (.errorList errs)
    else some (.callErr result)
  else none

/-- Identifier occurrence in a clause: node identity and name. -/
structure CIdent where
  nid : Nat
  name : String

/-- The for and if comprehension clauses, mirroring ast.ForClause (optional
key identifier, value identifier, source expression) and ast.IfClause
(condition expression); each clause node has an identity used as its key in
the scope map. -/
inductive Clause where
  | forClause (nid : Nat) (key : Option CIdent) (value : CIdent) (source : AstExpr)
  | ifClause (nid : Nat) (condition : AstExpr)

mutual

/-- Yielder values as built by the comprehension desugarer: the yield node
(key, value, opt filled in by the caller of wrapClauses), the feed node
wrapping a lowered source and a lambda, and the guard node wrapping a lowered
condition and an inner yielder. -/
inductive Yielder where
  | yieldY (src : Nat) (key : Option CueValue) (value : Option CueValue) (opt : Bool)
  | feedY (src : Nat) (source : CueValue) (fn : LambdaVal)
  | guardY (src : Nat) (condition : CueValue) (inner : Yielder)

/-- lambdaExpr as far as wrapClauses builds it: base value, the bound
parameters in declaration order, and the body. A parameter is a bound feature
with its declared type; modelled from the spec, the label interner (outside
src/) maps identical names to identical feature ids, so the name itself
stands for the feature, and params.add (outside src/) appends the new bound
name. -/
inductive LambdaVal where
  | mk (src : Nat) (params : List (String × CueValue)) (value : Option Yielder)

end

/-- Body of a lambda. -/
def LambdaVal.lamValue : LambdaVal → Option Yielder
  | .mk _ _ v => v

/-- Parameters of a lambda. -/
def LambdaVal.params : LambdaVal → List (String × CueValue)
  | .mk _ p _ => p

/-- Names bound by a lambda, in declaration order. -/
def LambdaVal.paramNames (fn : LambdaVal) : List String :=
  fn.params.map Prod.fst

/-- fn.add(f, value): append a bound name with its type. -/
def LambdaVal.addParam : LambdaVal → String → CueValue → LambdaVal
  | .mk src ps v, f, ty => .mk src (ps ++ [(f, ty)]) v

/-- fn.value = y: set the body of the lambda. -/
def LambdaVal.setValue : LambdaVal → Yielder → LambdaVal
  | .mk src ps _, y => .mk src ps (some y)

/-- Ghost trace entry recording what wrapClauses did, in order: a for-clause
lambda registered in the scope map, a for-clause source expression lowered, an
if-clause condition lowered. The trace is how the embedding states the
registration-before-lowering ordering of the two loops. -/
inductive BuildEvent where
  | scopeRegistered (nid : Nat)
  | sourceLowered (nid : Nat)
  | conditionLowered (nid : Nat)
deriving DecidableEq, Repr

/-- Does the event belong to the lowering loop rather than the registration
loop? -/
def BuildEvent.isLowering : BuildEvent → Bool
  | .scopeRegistered _ => false
  | .sourceLowered _ => true
  | .conditionLowered _ => true

/-- State threaded through wrapClauses: the identity-keyed scope map,
restricted to the lambda entries wrapClauses itself manages, and the ghost
event trace. -/
structure WrapState where
  astMap : List (Nat × LambdaVal)
  events : List BuildEvent

/-- Lookup in the scope map by node identity. -/
def lookupScope (m : List (Nat × LambdaVal)) (nid : Nat) : Option LambdaVal :=
  (m.find? (fun p => p.1 == nid)).map Prod.snd

/-- Pointer mutation of a lambda registered in the scope map, modelled as an
in-place update of its entry. -/
def updateScope (m : List (Nat × LambdaVal)) (nid : Nat) (fn : LambdaVal) :
    List (Nat × LambdaVal) :=
  m.map (fun p => if p.1 == nid then (p.1, fn) else p)

/-- First loop of wrapClauses: register a fresh lambda (source base value,
no parameters, no body) in the scope map for every for clause, before any
clause is lowered. -/
def registerForClauses (s : WrapState) : List Clause → WrapState
  | [] => s
  | .forClause nid _ _ source :: rest =>
    registerForClauses
      ⟨s.astMap ++ [(nid, .mk source.nid [] none)],
       s.events ++ [.scopeRegistered nid]⟩ rest
  | .ifClause _ _ :: rest => registerForClauses s rest

/-- Second loop of wrapClauses, which runs over the clause indices from high
to low; the list given here is already reversed, so this recursion reads it
front to back. For a for clause: fetch the pre-registered lambda, set its body
to the inner emitter, bind the key name (the wildcard name when the clause has
no key) at type basicType stringKind bitor intKind and then the value name at
type top, store the updated lambda back (the Go code mutates the shared
pointer), and wrap the lowered source in a feed node; for an if clause, wrap
the lowered condition and the inner emitter in a guard node. The none case of
the map lookup is unreachable for the states wrapClauses builds, because the
first loop registers every for clause. -/
def wrapClausesLoop (s : WrapState) (y : Yielder) : List Clause → WrapState × Yielder
  | [] => (s, y)
  | c :: rest =>
    match c with
    | .forClause nid key val source =>
      match lookupScope s.astMap nid with
      | some fn0 =>
        let fn := fn0.setValue y
        let keyName := (key.map CIdent.name).getD "_"
        let fn := fn.addParam keyName
          (.basicTypeV (key.map CIdent.nid) .stringOrIntKind)
        let fn := fn.addParam val.name (.topV none)
        let s : WrapState :=
          ⟨updateScope s.astMap nid fn,
           s.events ++ [.sourceLowered source.nid]⟩
        wrapClausesLoop s (.feedY source.nid (walk source) fn) rest
      | none => wrapClausesLoop s y rest
    | .ifClause _ condition =>
      let s : WrapState :=
        { s with events := s.events ++ [.conditionLowered condition.nid] }
      wrapClausesLoop s (.guardY condition.nid (walk condition) y) rest

/-- wrapClauses mirrors func wrapClauses(v, y, clauses): the first loop
registers a lambda for every for clause, the second loop wraps the clauses
right to left around the given yielder. -/
def wrapClauses (s : WrapState) (y : Yielder) (clauses : List Clause) :
    WrapState × Yielder :=
  wrapClausesLoop (registerForClauses s clauses) y clauses.reverse

/-- The scope registration events a clause list gives rise to, in clause
order. -/
def regsOf (clauses : List Clause) : List BuildEvent :=
  clauses.filterMap (fun c =>
    match c with
    | .forClause nid _ _ _ => some (.scopeRegistered nid)
    | .ifClause _ _ => none)

end cue

/-- View inversion: the Go type assertion recovers the Bottom that a *Bottom
was injected into a Value as. -/
theorem asBottom_toValue (b : adt.Bottom) :
    b.toValue.asBottom = some b := rfl

/-- A fatal-class code has discriminant below IncompleteError. -/
theorem fatal_toNat_lt {c : adt.ErrorCode} (h : adt.fatalClass c = true) :
    c.toNat < 4 := by
  cases c <;> simp_all [adt.fatalClass, adt.incompleteClass, adt.ErrorCode.toNat]

/-- An incomplete-class code has discriminant at least IncompleteError. -/
theorem incomplete_toNat_ge {c : adt.ErrorCode} (h : adt.incompleteClass c = true) :
    4 ≤ c.toNat := by
  cases c <;> simp_all [adt.incompleteClass, adt.ErrorCode.toNat]

/-- IsIncomplete on a present Bottom is the incomplete-class test of its
code. -/
theorem isIncomplete_some (b : adt.Bottom) :
    adt.Bottom.IsIncomplete (some b) = adt.incompleteClass b.code := rfl

/-- Claim C1: for every fatal-class Bottom a and incomplete-class Bottom b,
CombineErrors returns a unchanged in both argument orders, at any position. -/
theorem combineErrors_fatal_beats_incomplete (pos : Option Nat) (a b : adt.Bottom)
    (ha : adt.fatalClass a.code = true) (hb : adt.incompleteClass b.code = true) :
    adt.CombineErrors pos (some a.toValue) (some b.toValue) = some a ∧
    adt.CombineErrors pos (some b.toValue) (some a.toValue) = some a := by
  obtain ⟨asrc, aerr, ac, ahr, ace, av⟩ := a
  obtain ⟨bsrc, berr, bc, bhr, bce, bv⟩ := b
  cases ac <;> cases bc <;>
    simp_all [adt.fatalClass, adt.incompleteClass, adt.CombineErrors,
      adt.Bottom.toValue, adt.Value.asBottom, adt.ErrorCode.toNat]

/-- Witness for C1 at a concrete fatal and incomplete pair. -/
theorem combineErrors_fatal_beats_incomplete_w :
    adt.CombineErrors none
        (some (adt.Bottom.toValue ⟨none, ["a"], .evalError, false, false, none⟩))
        (some (adt.Bottom.toValue ⟨none, ["b"], .incompleteError, false, false, none⟩)) =
      some ⟨none, ["a"], .evalError, false, false, none⟩ ∧
    adt.CombineErrors none
        (some (adt.Bottom.toValue ⟨none, ["b"], .incompleteError, false, false, none⟩))
        (some (adt.Bottom.toValue ⟨none, ["a"], .evalError, false, false, none⟩)) =
      some ⟨none, ["a"], .evalError, false, false, none⟩ :=
  combineErrors_fatal_beats_incomplete none
    ⟨none, ["a"], .evalError, false, false, none⟩
    ⟨none, ["b"], .incompleteError, false, false, none⟩ rfl rfl

/-- Claim C4: merging two fatal Bottoms of equal code builds a fresh Bottom at
the given position with that code and the two diagnostics concatenated in
argument order; a single Bottom operand is returned unchanged from either
side; two non-Bottom operands give nil. -/
theorem combineErrors_merge_and_units (pos : Option Nat) (a b : adt.Bottom)
    (x y : Option adt.Value)
    (ha : adt.fatalClass a.code = true) (hab : a.code = b.code)
    (hx : x.bind adt.Value.asBottom = none) (hy : y.bind adt.Value.asBottom = none) :
    adt.CombineErrors pos (some a.toValue) (some b.toValue) =
      some ⟨pos, a.err ++ b.err, a.code, false, false, none⟩
    ∧ adt.CombineErrors pos x y = none
    ∧ adt.CombineErrors pos (some a.toValue) y = some a
    ∧ adt.CombineErrors pos x (some b.toValue) = some b := by
  refine ⟨?_, ?_, ?_, ?_⟩
  · unfold adt.CombineErrors
    simp [asBottom_toValue, hab]
  · unfold adt.CombineErrors
    rw [hx, hy]
  · unfold adt.CombineErrors
    rw [hy]
    simp [asBottom_toValue]
  · unfold adt.CombineErrors
    rw [hx]
    simp [asBottom_toValue]

/-- Witness for C4 at two concrete equal-code fatal Bottoms and absent
operands. -/
theorem combineErrors_merge_and_units_w :
    adt.CombineErrors none
        (some (adt.Bottom.toValue ⟨none, ["a"], .userError, false, false, none⟩))
        (some (adt.Bottom.toValue ⟨none, ["b"], .userError, false, false, none⟩)) =
      some ⟨none, ["a"] ++ ["b"], .userError, false, false, none⟩
    ∧ adt.CombineErrors none none none = none
    ∧ adt.CombineErrors none
        (some (adt.Bottom.toValue ⟨none, ["a"], .userError, false, false, none⟩)) none =
      some ⟨none, ["a"], .userError, false, false, none⟩
    ∧ adt.CombineErrors none none
        (some (adt.Bottom.toValue ⟨none, ["b"], .userError, false, false, none⟩)) =
      some ⟨none, ["b"], .userError, false, false, none⟩ :=
  combineErrors_merge_and_units none
    ⟨none, ["a"], .userError, false, false, none⟩
    ⟨none, ["b"], .userError, false, false, none⟩
    none none rfl rfl rfl rfl

/-- Claim C2: a fatal-class child error surfaces in the vertex value: a
non-Bottom value is replaced by a fresh Bottom carrying the recursive code and
message, flagged hasRecursive and childError and remembering the previous
value; a Bottom value gains the hasRecursive flag and the minimum of the two
codes while keeping its own message; and aggregating a StructuralCycleError
then a UserError into a fresh non-error vertex leaves a Bottom of code
UserError with hasRecursive set. -/
theorem addChildError_fatal (v : adt.Vertex) (r : adt.Bottom)
    (hr : adt.fatalClass r.code = true) :
    (v.value.bind adt.Value.asBottom = none →
      (v.AddChildError r).value =
        some (adt.Bottom.toValue ⟨none, r.err, r.code, true, true, v.value⟩))
    ∧ (∀ e : adt.Bottom, v.value = some e.toValue →
      ∃ c : adt.ErrorCode, c.toNat = Nat.min e.code.toNat r.code.toNat ∧
      (v.AddChildError r).value =
        some (adt.Bottom.toValue { e with hasRecursive := true, code := c }))
    ∧ ((adt.Vertex.AddChildError
          (adt.Vertex.AddChildError ⟨some (.other 0), none⟩
            ⟨none, ["cycle"], .structuralCycleError, false, false, none⟩)
          ⟨none, ["user"], .userError, false, false, none⟩).value =
        some (adt.Bottom.toValue
          ⟨none, ["cycle"], .userError, true, true, some (.other 0)⟩)) := by
  have hic : adt.Bottom.IsIncomplete (some r) = false := by
    rw [isIncomplete_some]
    simpa [adt.fatalClass] using hr
  refine ⟨?_, ?_, ?_⟩
  · intro h
    simp [adt.Vertex.AddChildError, hic, h]
  · intro e he
    refine ⟨if e.code.toNat > r.code.toNat then r.code else e.code, ?_, ?_⟩
    · rcases Nat.lt_or_ge r.code.toNat e.code.toNat with hlt | hge
      · rw [if_pos hlt]
        exact (Nat.min_eq_right (Nat.le_of_lt hlt)).symm
      · rw [if_neg (by omega)]
        exact (Nat.min_eq_left hge).symm
    · have hb : v.value.bind adt.Value.asBottom = some e := by
        rw [he, Option.some_bind, asBottom_toValue]
      simp only [adt.Vertex.AddChildError, hic, Bool.false_eq_true, if_false, hb]
      rcases Nat.lt_or_ge r.code.toNat e.code.toNat with hlt | hge
      · rw [if_pos hlt, if_pos hlt]
      · rw [if_neg (by omega), if_neg (by omega)]
  · rfl

/-- Witness for C2: a fatal UserError aggregated into a non-error vertex. -/
theorem addChildError_fatal_w :
    (adt.Vertex.AddChildError ⟨some (.other 1), none⟩
        ⟨none, ["u"], .userError, false, false, none⟩).value =
      some (adt.Bottom.toValue ⟨none, ["u"], .userError, true, true, some (.other 1)⟩) :=
  (addChildError_fatal ⟨some (.other 1), none⟩
    ⟨none, ["u"], .userError, false, false, none⟩ rfl).1 rfl

/-- Claim C3: every AddChildError call folds the recursive error into
ChildErrors through CombineErrors, whatever its code; and an incomplete-class
recursive error changes nothing else, the vertex value in particular being
left unchanged. -/
theorem addChildError_childErrors_fold (v : adt.Vertex) (r : adt.Bottom) :
    ((v.AddChildError r).childErrors =
      adt.CombineErrors none (v.childErrors.map adt.Bottom.toValue) (some r.toValue))
    ∧ (adt.incompleteClass r.code = true →
      v.AddChildError r = { v with
        childErrors := adt.CombineErrors none (v.childErrors.map adt.Bottom.toValue)
          (some r.toValue) }) := by
  constructor
  · by_cases hic : adt.Bottom.IsIncomplete (some r) = true
    · simp [adt.Vertex.AddChildError, hic]
    · rw [Bool.not_eq_true] at hic
      cases hb : v.value.bind adt.Value.asBottom with
      | none => simp [adt.Vertex.AddChildError, hic, hb]
      | some e => simp [adt.Vertex.AddChildError, hic, hb]
  · intro h
    have hic : adt.Bottom.IsIncomplete (some r) = true := by
      rw [isIncomplete_some, h]
    simp [adt.Vertex.AddChildError, hic]

/-- Witness for C3: an incomplete CycleError folded into a fresh vertex. -/
theorem addChildError_childErrors_fold_w :
    adt.Vertex.AddChildError ⟨none, none⟩
        ⟨none, ["c"], .cycleError, false, false, none⟩ =
      { adt.Vertex.mk none none with
        childErrors := adt.CombineErrors none
          ((none : Option adt.Bottom).map adt.Bottom.toValue)
          (some (adt.Bottom.toValue ⟨none, ["c"], .cycleError, false, false, none⟩)) } :=
  (addChildError_childErrors_fold ⟨none, none⟩
    ⟨none, ["c"], .cycleError, false, false, none⟩).2 rfl

/-- Claim C8: isIncomplete holds exactly for an absent vertex or a vertex
whose current value is a Bottom of incomplete class; it is false for a Bottom
of any other code and for any non-Bottom value. -/
theorem isIncomplete_iff (v : Option adt.Vertex) :
    adt.isIncomplete v = true ↔
      v = none ∨ ∃ w b, v = some w ∧ w.value = some (adt.Bottom.toValue b) ∧
        adt.incompleteClass b.code = true := by
  cases v with
  | none => simp [adt.isIncomplete]
  | some w =>
    simp only [adt.isIncomplete, reduceCtorEq, Option.some.injEq, false_or]
    cases hw : w.value with
    | none =>
      simp only [Option.none_bind]
      constructor
      · intro h
        exact absurd h (by simp)
      · rintro ⟨w1, b, rfl, hb, hbc⟩
        rw [hw] at hb
        cases hb
    | some val =>
      cases val with
      | other t =>
        simp only [Option.some_bind, adt.Value.asBottom]
        constructor
        · intro h
          exact absurd h (by simp)
        · rintro ⟨w1, b, rfl, hb, hbc⟩
          rw [hw] at hb
          cases hb
      | bottomV s e c h ce vv =>
        simp only [Option.some_bind, adt.Value.asBottom, isIncomplete_some]
        constructor
        · intro hc
          exact ⟨w, ⟨s, e, c, h, ce, vv⟩, rfl, hw, hc⟩
        · rintro ⟨w1, b, rfl, hb, hbc⟩
          rw [hw] at hb
          injection hb with hb
          cases b
          injection hb
          subst_vars
          exact hbc

/-- Claim C10: IsIncomplete on a nil *Bottom receiver is defined and reports
false, so a nil Bottom is never classified as incomplete-class. -/
theorem isIncomplete_nil_receiver : adt.Bottom.IsIncomplete none = false := rfl

/-- The hasDefaults flag after addDisjunctionElem: the previous flag, or else
whether the added operand contributes a unary branch to the flattened
chain. -/
theorem addDisjunctionElem_hasDefaults (d : cue.Disjunction) (n : cue.AstExpr)
    (mark : Bool) :
    (cue.addDisjunctionElem d n mark).hasDefaults =
      (d.hasDefaults || cue.hasUnaryBranch n) := by
  cases n with
  | basicLit nid s => simp [cue.addDisjunctionElem, cue.hasUnaryBranch]
  | ident nid name scopeId => simp [cue.addDisjunctionElem, cue.hasUnaryBranch]
  | listLit nid elems => simp [cue.addDisjunctionElem, cue.hasUnaryBranch]
  | unaryExpr nid op x =>
    by_cases h : op = cue.Token.mul <;>
      simp [cue.addDisjunctionElem, cue.hasUnaryBranch, h]
  | binaryExpr nid op x y =>
    cases op with
    | or =>
      have ih1 := addDisjunctionElem_hasDefaults d x mark
      have ih2 := addDisjunctionElem_hasDefaults
        (cue.addDisjunctionElem d x mark) y mark
      simp [cue.addDisjunctionElem, cue.hasUnaryBranch, ih1, ih2, Bool.or_assoc]
    | mul => simp [cue.addDisjunctionElem, cue.hasUnaryBranch]
    | add => simp [cue.addDisjunctionElem, cue.hasUnaryBranch]
    | sub => simp [cue.addDisjunctionElem, cue.hasUnaryBranch]
    | not => simp [cue.addDisjunctionElem, cue.hasUnaryBranch]
    | geq => simp [cue.addDisjunctionElem, cue.hasUnaryBranch]
    | gtr => simp [cue.addDisjunctionElem, cue.hasUnaryBranch]
    | lss => simp [cue.addDisjunctionElem, cue.hasUnaryBranch]
    | leq => simp [cue.addDisjunctionElem, cue.hasUnaryBranch]
    | neq => simp [cue.addDisjunctionElem, cue.hasUnaryBranch]
    | mat => simp [cue.addDisjunctionElem, cue.hasUnaryBranch]
    | nmat => simp [cue.addDisjunctionElem, cue.hasUnaryBranch]
termination_by sizeOf n

/-- The branch list after addDisjunctionElem: the previous branches followed
by the flattened branches of the added operand. -/
theorem addDisjunctionElem_values (d : cue.Disjunction) (n : cue.AstExpr)
    (mark : Bool) :
    (cue.addDisjunctionElem d n mark).values =
      d.values ++ cue.flattenBranches n mark := by
  cases n with
  | basicLit nid s => simp [cue.addDisjunctionElem, cue.flattenBranches]
  | ident nid name scopeId => simp [cue.addDisjunctionElem, cue.flattenBranches]
  | listLit nid elems => simp [cue.addDisjunctionElem, cue.flattenBranches]
  | unaryExpr nid op x =>
    by_cases h : op = cue.Token.mul <;>
      simp [cue.addDisjunctionElem, cue.flattenBranches, h]
  | binaryExpr nid op x y =>
    cases op with
    | or =>
      have ih1 := addDisjunctionElem_values d x mark
      have ih2 := addDisjunctionElem_values
        (cue.addDisjunctionElem d x mark) y mark
      simp [cue.addDisjunctionElem, cue.flattenBranches, ih1, ih2]
    | mul => simp [cue.addDisjunctionElem, cue.flattenBranches]
    | add => simp [cue.addDisjunctionElem, cue.flattenBranches]
    | sub => simp [cue.addDisjunctionElem, cue.flattenBranches]
    | not => simp [cue.addDisjunctionElem, cue.flattenBranches]
    | geq => simp [cue.addDisjunctionElem, cue.flattenBranches]
    | gtr => simp [cue.addDisjunctionElem, cue.flattenBranches]
    | lss => simp [cue.addDisjunctionElem, cue.flattenBranches]
    | leq => simp [cue.addDisjunctionElem, cue.flattenBranches]
    | neq => simp [cue.addDisjunctionElem, cue.flattenBranches]
    | mat => simp [cue.addDisjunctionElem, cue.flattenBranches]
    | nmat => simp [cue.addDisjunctionElem, cue.flattenBranches]
termination_by sizeOf n

/-- Claim C5, counterexample: lowering the disjunction of the branches
negative-1 and 2 sets hasDefaults although no branch carries the default
marker, because addDisjunctionElem raises the flag for every unary branch. -/
theorem hasDefaults_without_marker_cex :
    cue.hasDefaultMark (.binaryExpr 0 .or (.unaryExpr 1 .sub (.basicLit 2 "1"))
      (.basicLit 3 "2")) = false
    ∧ cue.walk (.binaryExpr 0 .or (.unaryExpr 1 .sub (.basicLit 2 "1"))
        (.basicLit 3 "2")) =
      .disjunctionV 0 [(.unaryV 1 .sub (.litV 2 "1"), false), (.litV 3 "2", false)]
        true := by
  constructor
  · rfl
  · simp [cue.walk, cue.addDisjunctionElem]

/-- Claim C5 amended: the lowered disjunction records hasDefaults = true
exactly when at least one branch of the flattened chain is a unary
expression; every branch prefixed with the default marker is one such branch,
but so is any other unary branch, a negation for instance, so the flag is not
keyed to the default marker alone. -/
theorem hasDefaults_iff_unary_branch (nid : Nat) (x y : cue.AstExpr) :
    cue.disjDefaults (cue.walk (.binaryExpr nid .or x y)) =
      some (cue.hasUnaryBranch (.binaryExpr nid .or x y)) := by
  have h1 := addDisjunctionElem_hasDefaults ⟨nid, [], false⟩ x false
  have h2 := addDisjunctionElem_hasDefaults
    (cue.addDisjunctionElem ⟨nid, [], false⟩ x false) y false
  simp [cue.walk, cue.disjDefaults, cue.hasUnaryBranch, h1, h2]

/-- Claim C7: flattening a chain of or-expressions recurses into both
operands that are themselves or-expressions, appends branches in left-to-right
source order, strips the default marker from a default-marked branch and marks
exactly that branch; in particular lowering 1 | *2 | 3 yields the branch list
(1, false), (2, true), (3, false) in that order. -/
theorem disjunction_flatten_order (d : cue.Disjunction) (n : cue.AstExpr)
    (mark : Bool) :
    ((cue.addDisjunctionElem d n mark).values =
      d.values ++ cue.flattenBranches n mark)
    ∧ cue.walk (.binaryExpr 0 .or
        (.binaryExpr 1 .or (.basicLit 2 "1") (.unaryExpr 3 .mul (.basicLit 4 "2")))
        (.basicLit 5 "3")) =
      .disjunctionV 0
        [(.litV 2 "1", false), (.litV 4 "2", true), (.litV 5 "3", false)] true := by
  refine ⟨addDisjunctionElem_values d n mark, ?_⟩
  simp [cue.walk, cue.addDisjunctionElem]

/-- Claim C6, counterexample: a failure recorded through errf is not surfaced
to the caller of insertFile when the top-level lowering result is not a
Bottom: the report is nil although the diagnostics list is nonempty. -/
theorem errf_not_surfaced_cex :
    (cue.errf [] [] 7 "reference not found").1.length = 1
    ∧ cue.isBottom (cue.errf [] [] 7 "reference not found").2 = true
    ∧ cue.insertFileReport (.litV 9 "1")
        (cue.errf [] [] 7 "reference not found").1 = none :=
  ⟨rfl, rfl, rfl⟩

/-- Claim C6 amended: every errf failure is appended to the build-wide
diagnostics list and returned as a bottom for the failing node; insertFile
surfaces an error to its caller exactly when the top-level lowering result is
a Bottom, preferring the full diagnostics list over the bare bottom whenever
that list is nonempty; when the top-level result is not a Bottom the recorded
diagnostics are not surfaced. -/
theorem errf_records_and_surfacing (errors : List cue.NodeError)
    (path : List String) (n : Nat) (msg : String)
    (result : cue.CueValue) (errs : List cue.NodeError) :
    (cue.errf errors path n msg).1 = errors ++ [⟨path, n, msg⟩]
    ∧ cue.isBottom (cue.errf errors path n msg).2 = true
    ∧ (cue.insertFileReport result errs ≠ none ↔ cue.isBottom result = true)
    ∧ (cue.isBottom result = true → errs ≠ [] →
        cue.insertFileReport result errs = some (.errorList errs))
    ∧ (cue.isBottom result = true → errs = [] →
        cue.insertFileReport result errs = some (.callErr result)) := by
  refine ⟨rfl, rfl, ⟨?_, ?_⟩, ?_, ?_⟩
  · intro h
    by_contra hb
    rw [Bool.not_eq_true] at hb
    simp [cue.insertFileReport, hb] at h
  · intro h
    simp only [cue.insertFileReport, h, if_true]
    split <;> simp
  · intro h hne
    simp [cue.insertFileReport, h, List.length_pos.mpr hne]
  · intro h he
    simp [cue.insertFileReport, h, he]

/-- Witness for the amended C6 at a concrete bottom result, once with a
nonempty diagnostics list surfaced as the list and once with an empty list
surfaced as the callError around the bottom. -/
theorem errf_records_and_surfacing_w :
    cue.insertFileReport (.bottomCue 1 "b") [⟨[], 0, "m"⟩] =
      some (.errorList [⟨[], 0, "m"⟩])
    ∧ cue.insertFileReport (.bottomCue 1 "b") [] =
      some (.callErr (.bottomCue 1 "b"))
    ∧ (cue.errf [] [] 0 "m").1 = [] ++ [⟨[], 0, "m"⟩] :=
  ⟨(errf_records_and_surfacing [] [] 0 "m" (.bottomCue 1 "b") [⟨[], 0, "m"⟩]).2.2.2.1
      rfl (by simp),
   (errf_records_and_surfacing [] [] 0 "m" (.bottomCue 1 "b") []).2.2.2.2
      rfl rfl,
   (errf_records_and_surfacing [] [] 0 "m" (.bottomCue 1 "b") [⟨[], 0, "m"⟩]).1⟩

/-- The registration loop appends exactly the scope registration events of
the for clauses, in clause order. -/
theorem registerForClauses_events (clauses : List cue.Clause) :
    ∀ s : cue.WrapState,
      (cue.registerForClauses s clauses).events = s.events ++ cue.regsOf clauses := by
  induction clauses with
  | nil => intro s; simp [cue.registerForClauses, cue.regsOf]
  | cons c rest ih =>
    intro s
    cases c with
    | forClause nid key val source =>
      rw [cue.registerForClauses, ih]
      simp [cue.regsOf, List.filterMap_cons]
    | ifClause nid condition =>
      rw [cue.registerForClauses, ih]
      simp [cue.regsOf, List.filterMap_cons]

/-- The lowering loop appends only lowering events to the ghost trace. -/
theorem wrapClausesLoop_events (l : List cue.Clause) :
    ∀ (s : cue.WrapState) (y : cue.Yielder), ∃ tail,
      (cue.wrapClausesLoop s y l).1.events = s.events ++ tail
      ∧ ∀ e ∈ tail, e.isLowering = true := by
  induction l with
  | nil =>
    intro s y
    exact ⟨[], by simp [cue.wrapClausesLoop], by simp⟩
  | cons c rest ih =>
    intro s y
    cases c with
    | forClause nid key val source =>
      cases hl : cue.lookupScope s.astMap nid with
      | some fn0 =>
        simp only [cue.wrapClausesLoop, hl]
        obtain ⟨tail, ht, hall⟩ := ih _ _
        rw [ht]
        refine ⟨.sourceLowered source.nid :: tail, by simp, ?_⟩
        intro e he
        rcases List.mem_cons.mp he with h | h
        · rw [h]; rfl
        · exact hall e h
      | none =>
        simp only [cue.wrapClausesLoop, hl]
        exact ih _ _
    | ifClause nid condition =>
      simp only [cue.wrapClausesLoop]
      obtain ⟨tail, ht, hall⟩ := ih _ _
      rw [ht]
      refine ⟨.conditionLowered condition.nid :: tail, by simp, ?_⟩
      intro e he
      rcases List.mem_cons.mp he with h | h
      · rw [h]; rfl
      · exact hall e h

/-- Claim C9: the comprehension desugarer processes clauses right to left;
every for-clause lambda is registered in the scope map before any clause is
lowered (the trace opens with exactly the registration events, and everything
after them is a lowering event); a for clause wraps its lowered source in a
feed node over a lambda whose body is the next-inner emitter and whose bound
names are the key name (the wildcard name when the clause has no key)
followed by the value name; an if clause wraps its lowered condition and the
inner emitter in a guard node; and the clause list of
for x in [1,2] if x > 1 desugars to one feed node wrapping one guard node
wrapping the given yield node. -/
theorem wrapClauses_desugar :
    (∀ (s : cue.WrapState) (y : cue.Yielder) (clauses : List cue.Clause),
      ∃ tail, (cue.wrapClauses s y clauses).1.events =
          s.events ++ cue.regsOf clauses ++ tail
        ∧ ∀ e ∈ tail, e.isLowering = true)
    ∧ (∀ (s : cue.WrapState) (y : cue.Yielder) (nid : Nat)
        (key : Option cue.CIdent) (val : cue.CIdent) (source : cue.AstExpr)
        (fn0 : cue.LambdaVal),
        cue.lookupScope s.astMap nid = some fn0 →
        ∃ fn, (cue.wrapClausesLoop s y [.forClause nid key val source]).2 =
            .feedY source.nid (cue.walk source) fn
          ∧ fn.lamValue = some y
          ∧ fn.paramNames =
              fn0.paramNames ++ [(key.map cue.CIdent.name).getD "_", val.name])
    ∧ (∀ (s : cue.WrapState) (y : cue.Yielder) (nid : Nat)
        (condition : cue.AstExpr),
        (cue.wrapClausesLoop s y [.ifClause nid condition]).2 =
          .guardY condition.nid (cue.walk condition) y)
    ∧ ((cue.wrapClauses ⟨[], []⟩
          (.yieldY 30 (some (.litV 31 "y"))
            (some (.selectorV 32 (.nodeRefV 32 1) "x")) false)
          [.forClause 1 none ⟨2, "x"⟩ (.listLit 10 [.basicLit 11 "1", .basicLit 12 "2"]),
           .ifClause 3 (.binaryExpr 20 .gtr (.ident 21 "x" 1) (.basicLit 22 "1"))]).2 =
        .feedY 10 (cue.walk (.listLit 10 [.basicLit 11 "1", .basicLit 12 "2"]))
          (.mk 10 [("_", .basicTypeV none .stringOrIntKind), ("x", .topV none)]
            (some (.guardY 20
              (cue.walk (.binaryExpr 20 .gtr (.ident 21 "x" 1) (.basicLit 22 "1")))
              (.yieldY 30 (some (.litV 31 "y"))
                (some (.selectorV 32 (.nodeRefV 32 1) "x")) false))))) := by
  refine ⟨?_, ?_, ?_, ?_⟩
  · intro s y clauses
    obtain ⟨tail, ht, hall⟩ :=
      wrapClausesLoop_events clauses.reverse (cue.registerForClauses s clauses) y
    refine ⟨tail, ?_, hall⟩
    rw [cue.wrapClauses, ht, registerForClauses_events clauses s, List.append_assoc]
  · intro s y nid key val source fn0 hl
    refine ⟨((fn0.setValue y).addParam ((key.map cue.CIdent.name).getD "_")
        (.basicTypeV (key.map cue.CIdent.nid) .stringOrIntKind)).addParam
        val.name (.topV none), ?_, ?_, ?_⟩
    · simp [cue.wrapClausesLoop, hl]
    · cases fn0
      rfl
    · cases fn0
      simp [cue.LambdaVal.paramNames, cue.LambdaVal.params, cue.LambdaVal.addParam,
        cue.LambdaVal.setValue]
  · intro s y nid condition
    simp [cue.wrapClausesLoop]
  · simp [cue.wrapClauses, cue.registerForClauses, cue.wrapClausesLoop,
      cue.lookupScope, cue.updateScope, cue.LambdaVal.setValue,
      cue.LambdaVal.addParam, cue.AstExpr.nid, List.find?]

/-- Witness for C9 at a concrete pre-registered for clause, a concrete if
clause, and concrete states. -/
theorem wrapClauses_desugar_w :
    (∃ tail, (cue.wrapClauses ⟨[], []⟩ (.yieldY 41 none none false)
        [.ifClause 3 (.basicLit 43 "c")]).1.events =
        cue.WrapState.events ⟨[], []⟩ ++ cue.regsOf [.ifClause 3 (.basicLit 43 "c")] ++ tail
      ∧ ∀ e ∈ tail, e.isLowering = true)
    ∧ (∃ fn, (cue.wrapClausesLoop ⟨[(5, .mk 40 [] none)], []⟩
          (.yieldY 41 none none false)
          [.forClause 5 none ⟨6, "v"⟩ (.basicLit 42 "s")]).2 =
          .feedY 42 (cue.walk (.basicLit 42 "s")) fn
        ∧ fn.lamValue = some (.yieldY 41 none none false)
        ∧ fn.paramNames = (cue.LambdaVal.mk 40 [] none).paramNames ++ ["_", "v"]) :=
  ⟨wrapClauses_desugar.1 ⟨[], []⟩ (.yieldY 41 none none false)
      [.ifClause 3 (.basicLit 43 "c")],
   wrapClauses_desugar.2.1 ⟨[(5, .mk 40 [] none)], []⟩ (.yieldY 41 none none false)
      5 none ⟨6, "v"⟩ (.basicLit 42 "s") (.mk 40 [] none) rfl⟩

end Spec2Proof
